import Mathlib

/-! A shallow embedding of the outbound HTTP client request pipeline of
`src/net/ghttp/ghttp_client_request.go`: parameter encoding
(`prepareRequest`'s content-type switch), request construction (GET query
merge, multipart file-upload encoding, content-type sniffing, header and
cookie assembly), the bounded retry loop of `callRequest`, and the
browser-mode cookie reconciliation of `DoRequest`.

Go strings are modelled as lists of characters (`Str`).  External
collaborators that live outside the source file — `BuildParams`,
`json.Marshal`, `gparser.VarToXml`, `json.Valid`, `gstr.Trim`,
`gfile.Exists`, `gfile.Basename`, file open/read, the multipart boundary
and the network transport — are oracle functions supplied through the
`Env` record and the `transport` argument.  Runtime panics of the Go code
(out-of-bounds index, nil dereference) appear as dedicated error
branches of the total embedding. -/

deriving instance DecidableEq for Except

namespace Ghttp

/-- Go strings, modelled as lists of characters (bytes and runes are
identified, which is faithful for every input the claims use). -/
abbrev Str := List Char

/-- The literal `GET`. -/
def strGET : Str := ['G', 'E', 'T']

/-- The header key `Content-Type`. -/
def ctKey : Str := ['C', 'o', 'n', 't', 'e', 'n', 't', '-', 'T', 'y', 'p', 'e']

/-- The literal `application/json`. -/
def appJson : Str := ['a', 'p', 'p', 'l', 'i', 'c', 'a', 't', 'i', 'o', 'n', '/', 'j', 's', 'o', 'n']

/-- The literal `application/xml`. -/
def appXml : Str := ['a', 'p', 'p', 'l', 'i', 'c', 'a', 't', 'i', 'o', 'n', '/', 'x', 'm', 'l']

/-- The literal `application/x-www-form-urlencoded`. -/
def formUrlenc : Str :=
  ['a', 'p', 'p', 'l', 'i', 'c', 'a', 't', 'i', 'o', 'n', '/', 'x', '-', 'w', 'w', 'w', '-',
   'f', 'o', 'r', 'm', '-', 'u', 'r', 'l', 'e', 'n', 'c', 'o', 'd', 'e', 'd']

/-- The 6-character file-upload marker `@file:`. -/
def atFile : Str := ['@', 'f', 'i', 'l', 'e', ':']

/-- The header key `Host`. -/
def hostKey : Str := ['H', 'o', 's', 't']

/-- The header key `Cookie`. -/
def cookieKey : Str := ['C', 'o', 'o', 'k', 'i', 'e']

/-- The header key `User-Agent`. -/
def uaKey : Str := ['U', 's', 'e', 'r', '-', 'A', 'g', 'e', 'n', 't']

/-- The fixed part of `multipart.Writer.FormDataContentType`:
`multipart/form-data; boundary=`. -/
def mpPre : Str :=
  ['m', 'u', 'l', 't', 'i', 'p', 'a', 'r', 't', '/', 'f', 'o', 'r', 'm', '-', 'd', 'a', 't', 'a',
   ';', ' ', 'b', 'o', 'u', 'n', 'd', 'a', 'r', 'y', '=']

/-- Go `strings.ToUpper` restricted to ASCII (all methods the claims use
are ASCII). -/
def toUpperStr (s : Str) : Str := s.map Char.toUpper

/-- Whether `pat` is a prefix of `s` (Go `strings.Compare(s[0:n], pat) == 0`
guarded by a length test, and the anchored part of substring search). -/
def startsWith : Str → Str → Bool
  | _, [] => true
  | [], _ :: _ => false
  | c :: s, p :: ps => if c = p then startsWith s ps else false

/-- Go `strings.Contains s pat`: `pat` occurs as a contiguous substring
of `s`. -/
def hasSub : Str → Str → Bool
  | [], pat => startsWith [] pat
  | c :: rest, pat => startsWith (c :: rest) pat || hasSub rest pat

/-- Go `strings.Split s (string-of-one-char sep)`: the result is never
empty, and splitting the empty string yields `[[]]`. -/
def splitOnChar (sep : Char) : Str → List Str
  | [] => [[]]
  | c :: rest =>
    match splitOnChar sep rest with
    | [] => [[c]]
    | s :: ss => if c = sep then [] :: s :: ss else (c :: s) :: ss

/-- Lookup in an association list, first match wins (Go map read). -/
def getKV : List (Str × Str) → Str → Option Str
  | [], _ => none
  | (k', v) :: rest, k => if k' = k then some v else getKV rest k

/-- Go `http.Header.Set` / map write: replace the first entry with the
given key, or append. -/
def setKV : List (Str × Str) → Str → Str → List (Str × Str)
  | [], k, v => [(k, v)]
  | (k', v') :: rest, k, v =>
    if k' = k then (k, v) :: rest else (k', v') :: setKV rest k v

/-- Go `delete` on a map: remove every entry with the given key. -/
def delKV : List (Str × Str) → Str → List (Str × Str)
  | [], _ => []
  | (k', v') :: rest, k =>
    if k' = k then delKV rest k else (k', v') :: delKV rest k

/-- A character of the regex class `[\w\[\]]` (Go `\w` is ASCII
`[0-9A-Za-z_]`). -/
def isWordBracketChar (c : Char) : Bool :=
  c.isAlphanum || c == '_' || c == '[' || c == ']'

/-- Go `gregex.IsMatchString` for the anchored pattern of the source,
one or more word/bracket characters, then `=`, then at least one
non-newline character.  Because `=` is not in the leading class, the run
before `=` is forced to be the maximal run, so matching is equivalent to
this direct check. -/
def matchFormShape (s : Str) : Bool :=
  let run := s.takeWhile isWordBracketChar
  match s.drop run.length with
  | '=' :: c :: _ => !run.isEmpty && !(c == '\n')
  | _ => false

/-- A user-supplied `interface{}` argument: a string, a byte slice, or
any other value (identified by a tag and interpreted by the oracle
marshal functions of `Env`). -/
inductive GoValue where
  | vstr (s : Str)
  | vbytes (b : Str)
  | vother (tag : Nat)
deriving DecidableEq

/-- Every observable failure of the embedded pipeline.  `indexOob` is the
out-of-bounds access `array[1]` of the multipart branch and `nilDeref`
marks the nil-`Response` dereference of the cookie sync; both are runtime
panics in the Go original, made explicit error branches here. -/
inductive RunErr where
  | marshalFail (tag : Nat)
  | xmlFail (tag : Nat)
  | pathNotExist (path : Str)
  | fileReadFail (tag : Nat)
  | indexOob
deriving DecidableEq

/-- Oracle functions for the collaborators the source file calls but does
not define: `gstr.Trim`, `BuildParams`, `json.Marshal`,
`gparser.VarToXml`, `json.Valid`, `gfile.Exists`, file open-and-copy,
`gfile.Basename`, and the random multipart boundary. -/
structure Env where
  trim : Str → Str
  buildParams : GoValue → Str
  jsonMarshal : Nat → Except Nat Str
  xmlMarshal : Nat → Except Nat Str
  jsonValid : Str → Bool
  fileExists : Str → Bool
  readFile : Str → Except Nat Str
  basename : Str → Str
  boundary : Str

/-- The client fields the source file reads and writes.  The middleware
handler list is empty in this model (the chain dispatcher lives outside
the source file); `ctx` and tracing are external and have no observable
effect on the modelled state. -/
structure Client where
  header : List (Str × Str)
  cookies : List (Str × Str)
  authUser : Str
  authPass : Str
  agent : Str
  pfxUrl : Str
  retryCount : Nat
  retryInterval : Nat
  browserMode : Bool
deriving DecidableEq

/-- One part of a multipart body: a streamed file part
(`writer.CreateFormFile` plus `io.Copy`) or a plain field
(`writer.WriteField`). -/
inductive BodyPart where
  | filePart (name fileName content : Str)
  | fieldPart (name value : Str)
deriving DecidableEq

/-- The request body: raw bytes (`bytes.NewReader`) or a finalized
multipart message, abstracted as its ordered parts. -/
inductive Body where
  | raw (bytes : Str)
  | multipartBody (parts : List BodyPart)
deriving DecidableEq

/-- The outbound `http.Request` as far as the source observes it. -/
structure HttpRequest where
  method : Str
  url : Str
  body : Body
  headers : List (Str × Str)
  host : Str
  basicAuth : Option (Str × Str)
deriving DecidableEq

/-- One `Set-Cookie` entry of a response: `expires = none` models the
zero time (`Expires.IsZero()`), `some t` an expiry at Unix time `t`. -/
structure Cookie where
  name : Str
  value : Str
  expires : Option Int
deriving DecidableEq

/-- The transport response as far as the source observes it after a
call: only its cookies matter to the modelled state. -/
structure HttpResponse where
  respCookies : List Cookie
deriving DecidableEq

/-- The parameter-encoding switch of `prepareRequest` (lines 155-183):
on `application/json` or `application/xml` a string or byte slice passes
through unmodified and any other value is marshaled (a marshal failure
aborts); otherwise `BuildParams` flattens the value. -/
def encodeParam (env : Env) (c : Client) (data : List GoValue) : Except RunErr Str :=
  match data with
  | [] => .ok []
  | d :: _ =>
    let ct := (getKV c.header ctKey).getD []
    if ct = appJson then
      match d with
      | .vstr s => .ok s
      | .vbytes b => .ok b
      | .vother t =>
        match env.jsonMarshal t with
        | .ok b => .ok b
        | .error tag => .error (.marshalFail tag)
    else if ct = appXml then
      match d with
      | .vstr s => .ok s
      | .vbytes b => .ok b
      | .vother t =>
        match env.xmlMarshal t with
        | .ok b => .ok b
        | .error tag => .error (.xmlFail tag)
    else
      .ok (env.buildParams d)

/-- Whether a field value is a file reference: strictly longer than 6
characters and starting with `@file:`; the remainder is the path
(lines 203-204). -/
def fileRefPath (v : Str) : Option Str :=
  if 6 < v.length then
    if v.take 6 = atFile then some (v.drop 6) else none
  else none

/-- The multipart encoding loop (lines 201-230): each `&`-delimited item
is split on `=` and its element at index 1 is accessed unconditionally —
an item without `=` hits the `indexOob` branch (a panic in Go).  A file
reference whose path does not exist aborts with `pathNotExist`; an
open/copy failure aborts with `fileReadFail`; writer operations on the
in-memory buffer never fail and `writer.Close` always succeeds. -/
def buildParts (env : Env) : List Str → Except RunErr (List BodyPart)
  | [] => .ok []
  | item :: rest =>
    match splitOnChar '=' item with
    | a0 :: a1 :: _ =>
      match fileRefPath a1 with
      | some path =>
        if env.fileExists path then
          match env.readFile path with
          | .ok content =>
            match buildParts env rest with
            | .ok parts => .ok (.filePart a0 (env.basename path) content :: parts)
            | .error e => .error e
          | .error tag => .error (.fileReadFail tag)
        else .error (.pathNotExist path)
      | none =>
        match buildParts env rest with
        | .ok parts => .ok (.fieldPart a0 a1 :: parts)
        | .error e => .error e
    | _ => .error .indexOob

/-- The JSON sniffing condition of line 252: first byte `[` or `{` and
the whole body valid JSON. -/
def jsonCond (env : Env) (param : Str) : Bool :=
  (param.headD ' ' == '[' || param.headD ' ' == '{') && env.jsonValid param

/-- The method-dependent branch of `prepareRequest` (lines 184-262):
returns the final URL, the body, and the branch-initial headers.  GET
appends the parameters to the URL and sends an empty body; a non-GET
body containing `@file:` is multipart-encoded; otherwise the raw bytes
are sent and the content type is the configured one, or sniffed. -/
def buildBase (env : Env) (c : Client) (method url1 param : Str) :
    Except RunErr (Str × Body × List (Str × Str)) :=
  if method = strGET then
    .ok (if param ≠ [] then
           (if url1.contains '?' then url1 ++ '&' :: param else url1 ++ '?' :: param)
         else url1,
         .raw [], [])
  else if hasSub param atFile then
    match buildParts env (splitOnChar '&' param) with
    | .ok parts => .ok (url1, .multipartBody parts, [(ctKey, mpPre ++ env.boundary)])
    | .error e => .error e
  else
    .ok (url1, .raw param,
      match getKV c.header ctKey with
      | some v => [(ctKey, v)]
      | none =>
        if param ≠ [] then
          if jsonCond env param then [(ctKey, appJson)]
          else if matchFormShape param then [(ctKey, formUrlenc)]
          else []
        else [])

/-- Go's single-`Cookie`-header join: `name=value` pairs separated by
`;` in store order (lines 282-293). -/
def joinCookies : List (Str × Str) → Str
  | [] => []
  | (k, v) :: [] => k ++ '=' :: v
  | (k, v) :: kv :: rest => k ++ '=' :: v ++ ';' :: joinCookies (kv :: rest)

/-- The tail of `prepareRequest` (lines 264-302): copy every configured
client header onto the request, derive the `Host` override (the request
host field is empty before this point), set the joined `Cookie` header
when the store is non-empty, basic auth when a user is configured, and
the `User-Agent` when configured. -/
def finishRequest (c : Client) (method u2 : Str) (body : Body)
    (hdr0 : List (Str × Str)) : HttpRequest :=
  let hdr1 := c.header.foldl (fun h kv => setKV h kv.1 kv.2) hdr0
  let hostV := (getKV hdr1 hostKey).getD []
  let hdr2 := if c.cookies ≠ [] then setKV hdr1 cookieKey (joinCookies c.cookies) else hdr1
  let hdr3 := if c.agent ≠ [] then setKV hdr2 uaKey c.agent else hdr2
  { method := method, url := u2, body := body, headers := hdr3, host := hostV,
    basicAuth := if c.authUser ≠ [] then some (c.authUser, c.authPass) else none }

/-- The whole of `prepareRequest` (lines 150-303). -/
def prepareRequest (env : Env) (c : Client) (method0 url0 : Str) (data : List GoValue) :
    Except RunErr HttpRequest :=
  let method := toUpperStr method0
  let url1 := if c.pfxUrl ≠ [] then c.pfxUrl ++ env.trim url0 else url0
  match encodeParam env c data with
  | .error e => .error e
  | .ok param =>
    match buildBase env c method url1 param with
    | .error e => .error e
    | .ok (u2, body, hdr0) => .ok (finishRequest c method u2 body hdr0)

/-- One observable event of the retry loop: a transport send, or a
`time.Sleep` of the given duration. -/
inductive Ev where
  | send
  | sleepFor (d : Nat)
deriving DecidableEq

/-- Number of transport sends in a trace. -/
def countSend : List Ev → Nat
  | [] => 0
  | .send :: r => countSend r + 1
  | .sleepFor _ :: r => countSend r

/-- Number of sleeps in a trace. -/
def countSleep : List Ev → Nat
  | [] => 0
  | .send :: r => countSleep r
  | .sleepFor _ :: r => countSleep r + 1

/-- The trace of a run that fails on every attempt with retry budget
`n`: `n + 1` sends with a sleep of the configured interval between
consecutive sends. -/
def retryTrace (interval : Nat) : Nat → List Ev
  | 0 => [.send]
  | n + 1 => .send :: .sleepFor interval :: retryTrace interval n

/-- One outcome of `c.Do(req)`: a response, or an error (with a possibly
non-nil response whose body the loop closes and discards). -/
inductive DoResult where
  | ok (r : HttpResponse)
  | fail (r : Option HttpResponse) (tag : Nat)

/-- The observable outcome of the retry loop: its event trace, the final
value of `resp.Response` (possibly nil), the final error, and the
remaining retry budget left stored on the client. -/
structure LoopOut where
  trace : List Ev
  respFinal : Option HttpResponse
  err : Option Nat
  left : Nat
deriving DecidableEq

/-- The retry loop of `callRequest` (lines 316-334): send; on success
stop with the response and no error; on failure close any produced
response, and if budget remains decrement it, sleep the configured
interval and retry, else stop with the last error.  `transport i` is the
outcome of the `i`-th send (attempts counted from 0). -/
def callLoop (transport : Nat → DoResult) (interval : Nat) : Nat → Nat → LoopOut
  | 0, i =>
    match transport i with
    | .ok r => ⟨[.send], some r, none, 0⟩
    | .fail r tag => ⟨[.send], r, some tag, 0⟩
  | f + 1, i =>
    match transport i with
    | .ok r => ⟨[.send], some r, none, f + 1⟩
    | .fail _ _ =>
      let out := callLoop transport interval f (i + 1)
      ⟨.send :: .sleepFor interval :: out.trace, out.respFinal, out.err, out.left⟩

/-- The non-nil wrapper `callRequest` always allocates: the embedded
transport response (which may be nil) plus the captured request body. -/
structure ClientResponse where
  response : Option HttpResponse
  requestBody : Body
deriving DecidableEq

/-- The result of one `callRequest` call. -/
structure CallOut where
  resp : ClientResponse
  err : Option Nat
  left : Nat
  trace : List Ev
deriving DecidableEq

/-- The whole of `callRequest` (lines 307-336): capture the request body
for replay, run the retry loop starting from the client's stored
`retryCount`, and return the wrapper (always non-nil) with the last
error. -/
def callRequest (c : Client) (req : HttpRequest) (transport : Nat → DoResult) : CallOut :=
  let out := callLoop transport c.retryInterval c.retryCount 0
  ⟨⟨out.respFinal, req.body⟩, out.err, out.left, out.trace⟩

/-- The browser-mode cookie reconciliation of `DoRequest`
(lines 136-145): for each response cookie in order, a set expiry
strictly before `now` deletes the stored entry, anything else upserts
the value. -/
def syncCookies (now : Int) (store : List (Str × Str)) (cs : List Cookie) :
    List (Str × Str) :=
  cs.foldl
    (fun st v =>
      match v.expires with
      | some t => if t < now then delKV st v.name else setKV st v.name v.value
      | none => setKV st v.name v.value)
    store

/-- The result discriminator of one `DoRequest` call: a construction
error before any send (`(nil, err)` in Go), a normal return of the
wrapper and last error, or the nil-`Response` dereference of the cookie
sync (a panic in Go). -/
inductive DoRes where
  | preErr (e : RunErr)
  | done (resp : ClientResponse) (err : Option Nat)
  | nilDerefStop
deriving DecidableEq

/-- The observable outcome of one `DoRequest` call: its discriminator,
the transport event trace, and the updated client state (retry budget
and cookie store). -/
structure DoOut where
  res : DoRes
  trace : List Ev
  client : Client
deriving DecidableEq

/-- The whole of `DoRequest` (lines 98-147) on the direct (no
middleware) path: build the request (an error returns immediately with
no send), run `callRequest`, persist the remaining retry budget on the
client, and in browser mode reconcile cookies — the guard only checks
the always-non-nil wrapper, so a nil embedded response is dereferenced
(`nilDerefStop`). -/
def DoRequest (env : Env) (c : Client) (method url : Str) (data : List GoValue)
    (transport : Nat → DoResult) (now : Int) : DoOut :=
  match prepareRequest env c method url data with
  | .error e => ⟨.preErr e, [], c⟩
  | .ok req =>
    let out := callRequest c req transport
    let c1 := { c with retryCount := out.left }
    if c.browserMode then
      match out.resp.response with
      | none => ⟨.nilDerefStop, out.trace, c1⟩
      | some r =>
        ⟨.done out.resp out.err, out.trace,
         { c1 with cookies := syncCookies now c1.cookies r.respCookies }⟩
    else ⟨.done out.resp out.err, out.trace, c1⟩

/-! Helper lemmas about the retry loop. -/

theorem countSend_retryTrace (interval : Nat) :
    ∀ n, countSend (retryTrace interval n) = n + 1 := by
  intro n
  induction n with
  | zero => rfl
  | succ n ih => simp [retryTrace, countSend, ih]

theorem countSleep_retryTrace (interval : Nat) :
    ∀ n, countSleep (retryTrace interval n) = n := by
  intro n
  induction n with
  | zero => rfl
  | succ n ih => simp [retryTrace, countSleep, ih]

theorem callLoop_allFail (ro : Nat → Option HttpResponse) (e : Nat → Nat) (interval : Nat) :
    ∀ fuel i, callLoop (fun j => DoResult.fail (ro j) (e j)) interval fuel i =
      ⟨retryTrace interval fuel, ro (fuel + i), some (e (fuel + i)), 0⟩ := by
  intro fuel
  induction fuel with
  | zero => intro i; simp [callLoop, retryTrace]
  | succ f ih =>
      intro i
      simp only [callLoop, ih (i + 1), retryTrace]
      have h : f + (i + 1) = f + 1 + i := by omega
      simp [h]

theorem callLoop_firstOk (transport : Nat → DoResult) (interval fuel i : Nat)
    (r : HttpResponse) (h : transport i = .ok r) :
    callLoop transport interval fuel i = ⟨[.send], some r, none, fuel⟩ := by
  cases fuel with
  | zero => simp [callLoop, h]
  | succ f => simp [callLoop, h]

theorem callLoop_budget (transport : Nat → DoResult) (interval : Nat) :
    ∀ fuel i,
      countSleep (callLoop transport interval fuel i).trace +
          (callLoop transport interval fuel i).left = fuel ∧
      countSend (callLoop transport interval fuel i).trace =
          countSleep (callLoop transport interval fuel i).trace + 1 := by
  intro fuel
  induction fuel with
  | zero =>
      intro i
      simp only [callLoop]
      cases transport i with
      | ok r => simp [countSend, countSleep]
      | fail r tag => simp [countSend, countSleep]
  | succ f ih =>
      intro i
      simp only [callLoop]
      cases transport i with
      | ok r => simp [countSend, countSleep]
      | fail r tag =>
          have h := ih (i + 1)
          simp only [countSend, countSleep]
          omega

/-! Helper lemmas about the association-list operations. -/

theorem getKV_setKV_self (h : List (Str × Str)) (k v : Str) :
    getKV (setKV h k v) k = some v := by
  induction h with
  | nil => simp [setKV, getKV]
  | cons kv rest ih =>
      obtain ⟨k', v'⟩ := kv
      by_cases hk : k' = k
      · simp [setKV, hk, getKV]
      · simp [setKV, hk, getKV, ih]

theorem getKV_setKV_other (h : List (Str × Str)) (k k' v : Str) (hne : k' ≠ k) :
    getKV (setKV h k' v) k = getKV h k := by
  induction h with
  | nil => simp [setKV, getKV, hne]
  | cons kv rest ih =>
      obtain ⟨k0, v0⟩ := kv
      by_cases hk : k0 = k'
      · simp [setKV, hk, getKV, hne]
      · simp only [setKV, hk, if_false, getKV]
        by_cases hk2 : k0 = k
        · simp [hk2]
        · simp [hk2, ih]

theorem getKV_delKV_self (h : List (Str × Str)) (k : Str) :
    getKV (delKV h k) k = none := by
  induction h with
  | nil => simp [delKV, getKV]
  | cons kv rest ih =>
      obtain ⟨k', v'⟩ := kv
      by_cases hk : k' = k
      · simp [delKV, hk, ih]
      · simp [delKV, hk, getKV, ih]

theorem getKV_none_keys (h : List (Str × Str)) (k : Str)
    (hn : getKV h k = none) : ∀ p ∈ h, p.1 ≠ k := by
  induction h with
  | nil => intro p hp; cases hp
  | cons kv rest ih =>
      obtain ⟨k', v'⟩ := kv
      intro p hp
      by_cases hk : k' = k
      · simp [getKV, hk] at hn
      · simp only [getKV, hk, if_false] at hn
        rcases List.mem_cons.mp hp with h1 | h2
        · subst h1; exact hk
        · exact ih hn p h2

theorem getKV_foldl_set_preserve (k : Str) :
    ∀ (l : List (Str × Str)) (h0 : List (Str × Str)), (∀ p ∈ l, p.1 ≠ k) →
      getKV (l.foldl (fun h kv => setKV h kv.1 kv.2) h0) k = getKV h0 k := by
  intro l
  induction l with
  | nil => intro h0 _; rfl
  | cons kv rest ih =>
      intro h0 hnm
      simp only [List.foldl_cons]
      rw [ih (setKV h0 kv.1 kv.2) (fun p hp => hnm p (List.mem_cons_of_mem kv hp))]
      exact getKV_setKV_other h0 k kv.1 kv.2 (hnm kv (List.mem_cons_self kv rest))

theorem getKV_foldl_set_lookup (k v : Str) :
    ∀ (l : List (Str × Str)) (h0 : List (Str × Str)),
      (l.map Prod.fst).Nodup → getKV l k = some v →
      getKV (l.foldl (fun h kv => setKV h kv.1 kv.2) h0) k = some v := by
  intro l
  induction l with
  | nil => intro h0 _ hget; simp [getKV] at hget
  | cons kv rest ih =>
      intro h0 hnd hget
      obtain ⟨k', v'⟩ := kv
      simp only [List.map_cons, List.nodup_cons] at hnd
      by_cases hk : k' = k
      · subst hk
        simp only [getKV, if_true, eq_self_iff_true, Option.some.injEq] at hget
        subst hget
        simp only [List.foldl_cons]
        rw [getKV_foldl_set_preserve k' rest (setKV h0 k' v')]
        · exact getKV_setKV_self h0 k' v'
        · intro p hp hcon
          exact hnd.1 (hcon ▸ List.mem_map_of_mem Prod.fst hp)
      · simp only [getKV, hk, if_false] at hget
        simp only [List.foldl_cons]
        exact ih (setKV h0 k' v') hnd.2 hget

/-! Helper lemmas about `finishRequest` and `buildParts`. -/

theorem getKV_setKV_ua_ct (h : List (Str × Str)) (v : Str) :
    getKV (setKV h uaKey v) ctKey = getKV h ctKey :=
  getKV_setKV_other h ctKey uaKey v (by decide)

theorem getKV_setKV_cookie_ct (h : List (Str × Str)) (v : Str) :
    getKV (setKV h cookieKey v) ctKey = getKV h ctKey :=
  getKV_setKV_other h ctKey cookieKey v (by decide)

theorem finishRequest_body (c : Client) (m u : Str) (b : Body) (h0 : List (Str × Str)) :
    (finishRequest c m u b h0).body = b := rfl

theorem finishRequest_url (c : Client) (m u : Str) (b : Body) (h0 : List (Str × Str)) :
    (finishRequest c m u b h0).url = u := rfl

theorem finishRequest_ct_none (c : Client) (m u : Str) (b : Body) (h0 : List (Str × Str))
    (hnone : getKV c.header ctKey = none) :
    getKV (finishRequest c m u b h0).headers ctKey = getKV h0 ctKey := by
  have hpres := getKV_foldl_set_preserve ctKey c.header h0 (getKV_none_keys c.header ctKey hnone)
  simp only [finishRequest]
  by_cases ha : c.agent ≠ [] <;> by_cases hc : c.cookies ≠ [] <;>
    simp [ha, hc, getKV_setKV_ua_ct, getKV_setKV_cookie_ct, hpres]

theorem finishRequest_ct_some (c : Client) (m u : Str) (b : Body) (h0 : List (Str × Str))
    (v : Str) (hnd : (c.header.map Prod.fst).Nodup)
    (hsome : getKV c.header ctKey = some v) :
    getKV (finishRequest c m u b h0).headers ctKey = some v := by
  have hl := getKV_foldl_set_lookup ctKey v c.header h0 hnd hsome
  simp only [finishRequest]
  by_cases ha : c.agent ≠ [] <;> by_cases hc : c.cookies ≠ [] <;>
    simp [ha, hc, getKV_setKV_ua_ct, getKV_setKV_cookie_ct, hl]

theorem buildParts_missing (env : Env) :
    ∀ items : List Str,
      (∀ item ∈ items, 2 ≤ (splitOnChar '=' item).length) →
      (∀ item ∈ items, ∀ p, fileRefPath ((splitOnChar '=' item).getD 1 []) = some p →
          env.fileExists p = true → ∃ s, env.readFile p = .ok s) →
      (∃ item ∈ items, ∃ p,
          fileRefPath ((splitOnChar '=' item).getD 1 []) = some p ∧ env.fileExists p = false) →
      ∃ p, env.fileExists p = false ∧ buildParts env items = .error (.pathNotExist p) := by
  intro items
  induction items with
  | nil =>
      intro _ _ hbad
      obtain ⟨item, hit, -⟩ := hbad
      cases hit
  | cons item rest ih =>
      intro hwf hread hbad
      have hlen := hwf item (List.mem_cons_self item rest)
      rcases hsp : splitOnChar '=' item with _ | ⟨a0, _ | ⟨a1, tl⟩⟩
      · rw [hsp] at hlen; simp at hlen
      · rw [hsp] at hlen; simp at hlen
      · have hgd : (splitOnChar '=' item).getD 1 [] = a1 := by rw [hsp]; rfl
        rcases hfr : fileRefPath a1 with _ | path
        · -- this item is a plain field, the offending item is in the tail
          have hbadr : ∃ it ∈ rest, ∃ p,
              fileRefPath ((splitOnChar '=' it).getD 1 []) = some p ∧
              env.fileExists p = false := by
            obtain ⟨it, hit, p, hp1, hp2⟩ := hbad
            rcases List.mem_cons.mp hit with he | hm
            · subst he; rw [hgd, hfr] at hp1; cases hp1
            · exact ⟨it, hm, p, hp1, hp2⟩
          obtain ⟨p, hpf, herr⟩ := ih
            (fun it hm => hwf it (List.mem_cons_of_mem item hm))
            (fun it hm => hread it (List.mem_cons_of_mem item hm)) hbadr
          refine ⟨p, hpf, ?_⟩
          simp [buildParts, hsp, hfr, herr]
        · by_cases hex : env.fileExists path = true
          · obtain ⟨s, hs⟩ := hread item (List.mem_cons_self item rest) path
              (by rw [hgd]; exact hfr) hex
            have hbadr : ∃ it ∈ rest, ∃ p,
                fileRefPath ((splitOnChar '=' it).getD 1 []) = some p ∧
                env.fileExists p = false := by
              obtain ⟨it, hit, p, hp1, hp2⟩ := hbad
              rcases List.mem_cons.mp hit with he | hm
              · subst he
                rw [hgd, hfr] at hp1
                cases hp1
                rw [hex] at hp2
                cases hp2
              · exact ⟨it, hm, p, hp1, hp2⟩
            obtain ⟨p, hpf, herr⟩ := ih
              (fun it hm => hwf it (List.mem_cons_of_mem item hm))
              (fun it hm => hread it (List.mem_cons_of_mem item hm)) hbadr
            refine ⟨p, hpf, ?_⟩
            simp [buildParts, hsp, hfr, hex, hs, herr]
          · have hex' : env.fileExists path = false := by
              cases hb : env.fileExists path
              · rfl
              · exact absurd hb hex
            refine ⟨path, hex', ?_⟩
            simp [buildParts, hsp, hfr, hex']

/-! Concrete environments, clients and inputs used by witnesses and
counterexamples. -/

/-- An oracle environment where no file exists, no payload is valid
JSON, and marshaling fails. -/
def envC : Env :=
  { trim := fun s => s
    buildParams := fun _ => []
    jsonMarshal := fun _ => .error 0
    xmlMarshal := fun _ => .error 0
    jsonValid := fun _ => false
    fileExists := fun _ => false
    readFile := fun _ => .error 0
    basename := fun s => s
    boundary := ['B'] }

/-- An oracle environment where every path exists and reads as `D`. -/
def envF : Env := { envC with fileExists := fun _ => true, readFile := fun _ => .ok ['D'] }

/-- An oracle environment whose `BuildParams` flattens everything to
`a=1`. -/
def envB : Env := { envC with buildParams := fun _ => ['a', '=', '1'] }

/-- A client configured with the `Content-Type: application/json`
header. -/
def clientJson : Client :=
  { header := [(ctKey, appJson)], cookies := [], authUser := [], authPass := [],
    agent := [], pfxUrl := [], retryCount := 0, retryInterval := 0, browserMode := false }

/-- A client with no configured headers. -/
def clientPlain : Client := { clientJson with header := [] }

/-- A browser-mode client with retry budget 2 and interval 7. -/
def clientB : Client := { clientJson with browserMode := true, retryCount := 2, retryInterval := 7 }

/-- The browser-mode client with a stored cookie `s=v1`. -/
def clientBCook : Client := { clientB with cookies := [(['s'], ['v', '1'])] }

/-- A response setting the session cookie `s=v2` with no expiry. -/
def rW : HttpResponse := ⟨[⟨['s'], ['v', '2'], none⟩]⟩

/-- The literal `POST`. -/
def postStr : Str := ['P', 'O', 'S', 'T']

/-- A one-character URL. -/
def uStr : Str := ['u']

/-- The well-formed upload field `a=@file:p`. -/
def aFileParam : Str := ['a', '='] ++ atFile ++ ['p']

/-- The `=`-free payload `x@file:y` that still contains the upload
marker. -/
def xFileParam : Str := ['x'] ++ atFile ++ ['y']

/-- A default request used to read the value out of a successful
`prepareRequest`. -/
def reqDefault : HttpRequest :=
  { method := [], url := [], body := .raw [], headers := [], host := [], basicAuth := none }

/-- Value of a successful `Except`, or the default. -/
def okOr (x : Except RunErr HttpRequest) (d : HttpRequest) : HttpRequest :=
  match x with
  | .ok r => r
  | .error _ => d

/-! Claim theorems. -/

/-- C1: with the client's retry count configured as `N = c.retryCount`
and a transport whose every attempt fails, `callRequest` produces the
trace send, sleep(interval), send, …, send — exactly `N + 1` send
attempts with a sleep of the configured retry interval between
consecutive attempts — and the error finally returned is the error of
the last (index `N`) transport attempt. -/
theorem retry_exhaustion (c : Client) (req : HttpRequest)
    (ro : Nat → Option HttpResponse) (e : Nat → Nat) :
    (callRequest c req (fun j => DoResult.fail (ro j) (e j))).trace
        = retryTrace c.retryInterval c.retryCount ∧
    countSend (callRequest c req (fun j => DoResult.fail (ro j) (e j))).trace
        = c.retryCount + 1 ∧
    countSleep (callRequest c req (fun j => DoResult.fail (ro j) (e j))).trace
        = c.retryCount ∧
    (callRequest c req (fun j => DoResult.fail (ro j) (e j))).err
        = some (e c.retryCount) := by
  have h := callLoop_allFail ro e c.retryInterval c.retryCount 0
  rw [Nat.add_zero] at h
  simp only [callRequest, h]
  simp [countSend_retryTrace, countSleep_retryTrace]

/-- C8: the retry budget is persistent client state, not per-call
state.  For any transport, the number of sleeps (retries) plus the
budget left stored on the client equals the configured count, and
attempts = retries + 1; after a call that exhausts its retries the
stored budget is `0`, so a subsequent call on the same client performs
exactly one attempt — the `N + 1` arithmetic holds only for the first
exhausting call. -/
theorem retry_budget_persistence (c : Client) (req : HttpRequest)
    (transport : Nat → DoResult) (ro : Nat → Option HttpResponse) (e : Nat → Nat) :
    countSleep (callRequest c req transport).trace + (callRequest c req transport).left
        = c.retryCount ∧
    countSend (callRequest c req transport).trace
        = countSleep (callRequest c req transport).trace + 1 ∧
    (callRequest c req (fun j => DoResult.fail (ro j) (e j))).left = 0 ∧
    countSend (callRequest
        { c with retryCount := (callRequest c req (fun j => DoResult.fail (ro j) (e j))).left }
        req (fun j => DoResult.fail (ro j) (e j))).trace = 1 := by
  have hb := callLoop_budget transport c.retryInterval c.retryCount 0
  have hf := callLoop_allFail ro e c.retryInterval c.retryCount 0
  rw [Nat.add_zero] at hf
  have hf0 := callLoop_allFail ro e c.retryInterval 0 0
  rw [Nat.add_zero] at hf0
  refine ⟨?_, ?_, ?_, ?_⟩
  · simpa only [callRequest] using hb.1
  · simpa only [callRequest] using hb.2
  · simp only [callRequest, hf]
  · simp only [callRequest, hf, hf0]
    rfl

/-- C9: in the multipart branch each `&`-delimited item has its
`=`-split element at index 1 accessed unconditionally, and the
out-of-bounds branch is reachable from the public entry point: a string
payload sent under a configured JSON content type that contains
`@file:` but no `=` reaches it, with no construction completed and no
send attempted. -/
theorem multipart_index_oob :
    prepareRequest envC clientJson postStr uStr [GoValue.vstr xFileParam]
        = .error .indexOob ∧
    (DoRequest envC clientJson postStr uStr [GoValue.vstr xFileParam]
        (fun _ => DoResult.fail none 0) 0).res = .preErr .indexOob ∧
    (DoRequest envC clientJson postStr uStr [GoValue.vstr xFileParam]
        (fun _ => DoResult.fail none 0) 0).trace = [] := by
  exact ⟨by decide, by decide, by decide⟩

/-- C10: when every transport attempt fails producing no response, the
non-nil `ClientResponse` wrapper carries a nil embedded response;
browser mode's cookie-sync guard only checks the wrapper, so the nil
embedded response is dereferenced (the `nilDerefStop` branch of the
embedding). -/
theorem nil_response_deref (env : Env) (c : Client) (method url : Str)
    (data : List GoValue) (e : Nat → Nat) (now : Int) (req : HttpRequest)
    (hb : c.browserMode = true)
    (hprep : prepareRequest env c method url data = .ok req) :
    (DoRequest env c method url data (fun j => DoResult.fail none (e j)) now).res
        = .nilDerefStop := by
  have hf : callLoop (fun j => DoResult.fail none (e j)) c.retryInterval c.retryCount 0
      = ⟨retryTrace c.retryInterval c.retryCount, none, some (e c.retryCount), 0⟩ := by
    have h2 := callLoop_allFail (fun _ => none) e c.retryInterval c.retryCount 0
    rw [Nat.add_zero] at h2
    exact h2
  simp only [DoRequest, hprep, callRequest, hf, hb]
  simp

/-- Witness for C10 at a concrete browser-mode client and always-failing
transport. -/
theorem nil_response_deref_witness :
    (DoRequest envC clientB strGET uStr [] (fun _ => DoResult.fail none 5) 0).res
      = DoRes.nilDerefStop :=
  nil_response_deref envC clientB strGET uStr [] (fun _ => 5) 0
    (okOr (prepareRequest envC clientB strGET uStr []) reqDefault) rfl (by decide)

/-- C2: a non-GET call whose encoded body is well-formed `name=value`
items, where every existing referenced file is readable and some item's
value is `@file:<path>` with `<path>` nonexistent, returns the
construction error naming a nonexistent path, and no request reaches
the transport: no send attempt occurs and no body is handed over. -/
theorem missing_upload_file_aborts (env : Env) (c : Client) (method url : Str)
    (data : List GoValue) (param : Str) (transport : Nat → DoResult) (now : Int)
    (hm : toUpperStr method ≠ strGET)
    (henc : encodeParam env c data = .ok param)
    (hat : hasSub param atFile = true)
    (hwf : ∀ item ∈ splitOnChar '&' param, 2 ≤ (splitOnChar '=' item).length)
    (hread : ∀ item ∈ splitOnChar '&' param, ∀ p,
        fileRefPath ((splitOnChar '=' item).getD 1 []) = some p →
        env.fileExists p = true → ∃ s, env.readFile p = .ok s)
    (hbad : ∃ item ∈ splitOnChar '&' param, ∃ p,
        fileRefPath ((splitOnChar '=' item).getD 1 []) = some p ∧
        env.fileExists p = false) :
    ∃ p, env.fileExists p = false ∧
      prepareRequest env c method url data = .error (.pathNotExist p) ∧
      (DoRequest env c method url data transport now).res = .preErr (.pathNotExist p) ∧
      (DoRequest env c method url data transport now).trace = [] := by
  obtain ⟨p, hpf, herr⟩ := buildParts_missing env (splitOnChar '&' param) hwf hread hbad
  have hpre : prepareRequest env c method url data = .error (.pathNotExist p) := by
    simp only [prepareRequest, henc]
    simp only [buildBase, if_neg hm]
    rw [if_pos hat, herr]
  exact ⟨p, hpf, hpre, by simp [DoRequest, hpre], by simp [DoRequest, hpre]⟩

/-- Witness for C2 at a JSON-passthrough payload `a=@file:p` with a
filesystem where no path exists. -/
theorem missing_upload_file_aborts_witness :
    ∃ p, envC.fileExists p = false ∧
      prepareRequest envC clientJson postStr uStr [GoValue.vstr aFileParam]
          = .error (.pathNotExist p) ∧
      (DoRequest envC clientJson postStr uStr [GoValue.vstr aFileParam]
          (fun _ => DoResult.fail none 0) 0).res = .preErr (.pathNotExist p) ∧
      (DoRequest envC clientJson postStr uStr [GoValue.vstr aFileParam]
          (fun _ => DoResult.fail none 0) 0).trace = [] := by
  refine missing_upload_file_aborts envC clientJson postStr uStr [GoValue.vstr aFileParam]
      aFileParam (fun _ => DoResult.fail none 0) 0 (by decide) rfl (by decide) (by decide)
      ?_ ?_
  · intro item hit p hp hex
    simp [envC] at hex
  · exact ⟨aFileParam, by decide, ['p'], by decide, by decide⟩

/-- C3 counterexample: a client configured with content type
`application/json` and a passthrough string payload `a=@file:p` — a body
produced by the JSON passthrough path — is re-interpreted as form
fields and multipart-encoded: the produced request's body is a
multipart body with a file part, refuting that the JSON passthrough
output is never re-routed into multipart encoding. -/
theorem json_mode_multipart_cx :
    getKV clientJson.header ctKey = some appJson ∧
    (prepareRequest envF clientJson postStr uStr [GoValue.vstr aFileParam]).map
        (fun r => r.body)
      = .ok (.multipartBody [.filePart ['a'] ['p'] ['D']]) :=
  ⟨by decide, by decide⟩

/-- C3 amended: exactly one encoding mode is used per request, but the
mode is determined by the method, the content-type, the payload shape,
and whether the encoded parameter string contains `@file:`: GET always
produces an empty raw body, a non-GET body containing `@file:` is
multipart-encoded (even when the parameter string came from the
JSON/XML passthrough), and a non-GET body without `@file:` is the raw
parameter bytes. -/
theorem encoding_mode_characterization (env : Env) (c : Client) (method url : Str)
    (data : List GoValue) (param : Str) (req : HttpRequest)
    (henc : encodeParam env c data = .ok param)
    (hprep : prepareRequest env c method url data = .ok req) :
    (toUpperStr method = strGET → req.body = .raw []) ∧
    (toUpperStr method ≠ strGET → hasSub param atFile = true →
        ∃ parts, buildParts env (splitOnChar '&' param) = .ok parts ∧
          req.body = .multipartBody parts) ∧
    (toUpperStr method ≠ strGET → hasSub param atFile = false → req.body = .raw param) := by
  simp only [prepareRequest, henc] at hprep
  by_cases hg : toUpperStr method = strGET
  · simp only [buildBase, if_pos hg] at hprep
    injection hprep with h
    subst h
    exact ⟨fun _ => rfl, fun hne => absurd hg hne, fun hne => absurd hg hne⟩
  · by_cases hf : hasSub param atFile = true
    · simp only [buildBase, if_neg hg] at hprep
      rw [if_pos hf] at hprep
      rcases hbp : buildParts env (splitOnChar '&' param) with e | parts
      · rw [hbp] at hprep
        simp at hprep
      · rw [hbp] at hprep
        simp only at hprep
        injection hprep with h
        subst h
        exact ⟨fun hg2 => absurd hg2 hg, fun _ _ => ⟨parts, rfl, rfl⟩,
          fun _ hf2 => by rw [hf] at hf2; cases hf2⟩
    · have hf' : hasSub param atFile = false := by
        cases hx : hasSub param atFile
        · rfl
        · exact absurd hx hf
      simp only [buildBase, if_neg hg] at hprep
      rw [if_neg (by simp [hf'])] at hprep
      injection hprep with h
      subst h
      exact ⟨fun hg2 => absurd hg2 hg, fun _ hf2 => absurd hf2 hf, fun _ _ => rfl⟩

/-- Witness for the amended C3 at a non-GET, non-upload payload. -/
theorem encoding_mode_characterization_witness :
    (okOr (prepareRequest envC clientJson postStr uStr [GoValue.vstr ['a', '=', '1']])
        reqDefault).body = .raw ['a', '=', '1'] :=
  (encoding_mode_characterization envC clientJson postStr uStr [GoValue.vstr ['a', '=', '1']]
      (['a', '=', '1'])
      (okOr (prepareRequest envC clientJson postStr uStr [GoValue.vstr ['a', '=', '1']])
        reqDefault)
      rfl (by decide)).2.2 (by decide) (by decide)

/-- C4: content-type of the non-GET, non-multipart branch — an
explicitly configured client `Content-Type` wins; otherwise an empty
body sets nothing, a body passing the JSON sniff (first byte `[` or `{`
and valid JSON) sets `application/json`, a body matching the
`token=value` form shape sets `application/x-www-form-urlencoded`, and
anything else leaves the content type unset. -/
theorem content_type_sniffing (env : Env) (c : Client) (method url : Str)
    (data : List GoValue) (param : Str) (req : HttpRequest)
    (hm : toUpperStr method ≠ strGET)
    (hnd : (c.header.map Prod.fst).Nodup)
    (henc : encodeParam env c data = .ok param)
    (hnf : hasSub param atFile = false)
    (hprep : prepareRequest env c method url data = .ok req) :
    (∀ v, getKV c.header ctKey = some v → getKV req.headers ctKey = some v) ∧
    (getKV c.header ctKey = none → param = [] → getKV req.headers ctKey = none) ∧
    (getKV c.header ctKey = none → param ≠ [] → jsonCond env param = true →
        getKV req.headers ctKey = some appJson) ∧
    (getKV c.header ctKey = none → param ≠ [] → jsonCond env param = false →
        matchFormShape param = true → getKV req.headers ctKey = some formUrlenc) ∧
    (getKV c.header ctKey = none → param ≠ [] → jsonCond env param = false →
        matchFormShape param = false → getKV req.headers ctKey = none) := by
  simp only [prepareRequest, henc] at hprep
  simp only [buildBase, if_neg hm] at hprep
  rw [if_neg (by simp [hnf])] at hprep
  injection hprep with h
  subst h
  refine ⟨?_, ?_, ?_, ?_, ?_⟩
  · intro v hv
    exact finishRequest_ct_some c _ _ _ _ v hnd hv
  · intro hv hpe
    rw [finishRequest_ct_none c _ _ _ _ hv]
    simp [hv, hpe, getKV]
  · intro hv hpe hj
    rw [finishRequest_ct_none c _ _ _ _ hv]
    simp [hv, hpe, hj, getKV]
  · intro hv hpe hj hfm
    rw [finishRequest_ct_none c _ _ _ _ hv]
    simp [hv, hpe, hj, hfm, getKV]
  · intro hv hpe hj hfm
    rw [finishRequest_ct_none c _ _ _ _ hv]
    simp [hv, hpe, hj, hfm, getKV]

/-- Witness for C4: with no configured content type, the flattened body
`a=1` is sniffed as form-encoded. -/
theorem content_type_sniffing_witness :
    getKV (okOr (prepareRequest envB clientPlain postStr uStr [GoValue.vother 0])
        reqDefault).headers ctKey = some formUrlenc :=
  (content_type_sniffing envB clientPlain postStr uStr [GoValue.vother 0] (['a', '=', '1'])
      (okOr (prepareRequest envB clientPlain postStr uStr [GoValue.vother 0]) reqDefault)
      (by decide) (by decide) rfl (by decide) (by decide)).2.2.2.1
    rfl (by decide) (by decide) (by decide)

/-- C5: under a configured `application/json` or `application/xml`
content type, a string or byte-sequence argument becomes the body
byte-for-byte unmodified; any other value is marshaled with the
corresponding marshaler, and a marshal failure is returned to the
caller with no request constructed and no send attempted. -/
theorem json_xml_passthrough (env : Env) (c : Client) (method url : Str)
    (rest : List GoValue) (s : Str) (t : Nat) (transport : Nat → DoResult) (now : Int) :
    (getKV c.header ctKey = some appJson →
      encodeParam env c (.vstr s :: rest) = .ok s ∧
      encodeParam env c (.vbytes s :: rest) = .ok s ∧
      (∀ b, env.jsonMarshal t = .ok b → encodeParam env c (.vother t :: rest) = .ok b) ∧
      (∀ m, env.jsonMarshal t = .error m →
        encodeParam env c (.vother t :: rest) = .error (.marshalFail m) ∧
        prepareRequest env c method url (.vother t :: rest) = .error (.marshalFail m) ∧
        (DoRequest env c method url (.vother t :: rest) transport now).res
            = .preErr (.marshalFail m) ∧
        (DoRequest env c method url (.vother t :: rest) transport now).trace = [])) ∧
    (getKV c.header ctKey = some appXml →
      encodeParam env c (.vstr s :: rest) = .ok s ∧
      encodeParam env c (.vbytes s :: rest) = .ok s ∧
      (∀ b, env.xmlMarshal t = .ok b → encodeParam env c (.vother t :: rest) = .ok b) ∧
      (∀ m, env.xmlMarshal t = .error m →
        encodeParam env c (.vother t :: rest) = .error (.xmlFail m) ∧
        prepareRequest env c method url (.vother t :: rest) = .error (.xmlFail m) ∧
        (DoRequest env c method url (.vother t :: rest) transport now).res
            = .preErr (.xmlFail m) ∧
        (DoRequest env c method url (.vother t :: rest) transport now).trace = [])) := by
  constructor
  · intro h
    have hct : (getKV c.header ctKey).getD [] = appJson := by rw [h]; rfl
    refine ⟨by simp [encodeParam, hct], by simp [encodeParam, hct], ?_, ?_⟩
    · intro b hb
      simp [encodeParam, hct, hb]
    · intro m hm
      have he : encodeParam env c (.vother t :: rest) = .error (.marshalFail m) := by
        simp [encodeParam, hct, hm]
      exact ⟨he, by simp [prepareRequest, he], by simp [DoRequest, prepareRequest, he],
        by simp [DoRequest, prepareRequest, he]⟩
  · intro h
    have hct : (getKV c.header ctKey).getD [] = appXml := by rw [h]; rfl
    have hne : ¬(appXml = appJson) := by decide
    refine ⟨by simp [encodeParam, hct, hne], by simp [encodeParam, hct, hne], ?_, ?_⟩
    · intro b hb
      simp [encodeParam, hct, hne, hb]
    · intro m hm
      have he : encodeParam env c (.vother t :: rest) = .error (.xmlFail m) := by
        simp [encodeParam, hct, hne, hm]
      exact ⟨he, by simp [prepareRequest, he], by simp [DoRequest, prepareRequest, he],
        by simp [DoRequest, prepareRequest, he]⟩

/-- Witness for C5: passthrough of a string and a byte slice, and a
failing marshal aborting before any send. -/
theorem json_xml_passthrough_witness :
    encodeParam envC clientJson [GoValue.vstr ['a']] = .ok ['a'] ∧
    encodeParam envC clientJson [GoValue.vbytes ['b']] = .ok ['b'] ∧
    prepareRequest envC clientJson postStr uStr [GoValue.vother 3]
        = .error (.marshalFail 0) ∧
    (DoRequest envC clientJson postStr uStr [GoValue.vother 3]
        (fun _ => DoResult.fail none 0) 0).trace = [] := by
  have h := (json_xml_passthrough envC clientJson postStr uStr [] ['a'] 3
      (fun _ => DoResult.fail none 0) 0).1 rfl
  have h2 := (json_xml_passthrough envC clientJson postStr uStr [] ['b'] 3
      (fun _ => DoResult.fail none 0) 0).1 rfl
  exact ⟨h.1, h2.2.1, (h.2.2.2 0 rfl).2.1, (h.2.2.2 0 rfl).2.2.2⟩

/-- C6: a GET call with a non-empty encoded parameter string appends
the parameters to the (prefixed) URL, joined by `&` when the URL
already contains `?` and by `?` otherwise, and the GET request body is
empty. -/
theorem get_query_merge (env : Env) (c : Client) (method url : Str)
    (data : List GoValue) (param : Str) (req : HttpRequest)
    (hm : toUpperStr method = strGET)
    (henc : encodeParam env c data = .ok param)
    (hp : param ≠ [])
    (hprep : prepareRequest env c method url data = .ok req) :
    req.body = .raw [] ∧
    req.url = (if (if c.pfxUrl ≠ [] then c.pfxUrl ++ env.trim url else url).contains '?'
        then (if c.pfxUrl ≠ [] then c.pfxUrl ++ env.trim url else url) ++ '&' :: param
        else (if c.pfxUrl ≠ [] then c.pfxUrl ++ env.trim url else url) ++ '?' :: param) := by
  simp only [prepareRequest, henc] at hprep
  simp only [buildBase, if_pos hm, if_pos hp] at hprep
  injection hprep with h
  subst h
  exact ⟨rfl, rfl⟩

/-- Witness for C6 on a URL already containing `?`. -/
theorem get_query_merge_witness :
    (okOr (prepareRequest envC clientJson strGET ['u', '?'] [GoValue.vstr ['a']])
        reqDefault).body = .raw [] ∧
    (okOr (prepareRequest envC clientJson strGET ['u', '?'] [GoValue.vstr ['a']])
        reqDefault).url = ['u', '?', '&', 'a'] := by
  have h := get_query_merge envC clientJson strGET (['u', '?']) [GoValue.vstr ['a']] (['a'])
      (okOr (prepareRequest envC clientJson strGET ['u', '?'] [GoValue.vstr ['a']])
        reqDefault)
      (by decide) rfl (by decide) (by decide)
  exact ⟨h.1, h.2.trans (by decide)⟩

/-- C7: a browser-mode call that produced a response reconciles each
response cookie into the client store: a set expiry strictly before the
evaluation time deletes the stored name, anything else upserts the
value; across two sequential stores of the same name the second value
wins. -/
theorem browser_cookie_reconcile (env : Env) (c : Client) (method url : Str)
    (data : List GoValue) (transport : Nat → DoResult) (r : HttpResponse)
    (req : HttpRequest) (now : Int)
    (hb : c.browserMode = true)
    (hprep : prepareRequest env c method url data = .ok req)
    (htr : transport 0 = .ok r) :
    (DoRequest env c method url data transport now).client.cookies
        = syncCookies now c.cookies r.respCookies ∧
    (∀ st n v, getKV (syncCookies now st [⟨n, v, none⟩]) n = some v) ∧
    (∀ st n v t, t < now → getKV (syncCookies now st [⟨n, v, some t⟩]) n = none) ∧
    (∀ st n v t, ¬t < now → getKV (syncCookies now st [⟨n, v, some t⟩]) n = some v) ∧
    (∀ n1 n2 st nm v1 v2, getKV (syncCookies n2 (syncCookies n1 st [⟨nm, v1, none⟩])
        [⟨nm, v2, none⟩]) nm = some v2) := by
  refine ⟨?_, ?_, ?_, ?_, ?_⟩
  · have hcl := callLoop_firstOk transport c.retryInterval c.retryCount 0 r htr
    simp only [DoRequest, hprep, callRequest, hcl, hb]
    simp
  · intro st n v
    simp [syncCookies, getKV_setKV_self]
  · intro st n v t ht
    simp [syncCookies, ht, getKV_delKV_self]
  · intro st n v t ht
    simp [syncCookies, ht, getKV_setKV_self]
  · intro n1 n2 st nm v1 v2
    simp [syncCookies, getKV_setKV_self]

/-- Witness for C7: a concrete browser-mode call updating the store,
deletion of an expired cookie, and last-write-wins across two stores. -/
theorem browser_cookie_reconcile_witness :
    (DoRequest envC clientBCook strGET uStr [] (fun _ => DoResult.ok rW) 5).client.cookies
        = syncCookies 5 clientBCook.cookies rW.respCookies ∧
    getKV (syncCookies 5 [(['s'], ['v', '1'])] [⟨['s'], ['x'], some 3⟩]) ['s'] = none ∧
    getKV (syncCookies 9 (syncCookies 5 [] [⟨['s'], ['v', '1'], none⟩])
        [⟨['s'], ['v', '2'], none⟩]) ['s'] = some ['v', '2'] := by
  have h := browser_cookie_reconcile envC clientBCook strGET uStr []
      (fun _ => DoResult.ok rW) rW
      (okOr (prepareRequest envC clientBCook strGET uStr []) reqDefault) 5
      rfl (by decide) rfl
  exact ⟨h.1, h.2.2.1 [(['s'], ['v', '1'])] ['s'] ['x'] 3 (by decide),
    h.2.2.2.2 5 9 [] ['s'] ['v', '1'] ['v', '2']⟩

end Ghttp
